import Mathlib

/-!
# Verification of the Gumnam messenger against its specification

Shallow embedding of the Rust sources (`src/crypto.rs`, `src/message.rs`,
`src/storage.rs`, `src/cli.rs`, `src/tor_service.rs`) in Lean 4, together
with theorems settling the frozen claims about the natural-language
specification.

Modelling conventions:
* Machine bytes are `Fin 256`; byte strings are `List (Fin 256)`.
* Rust strings appear either as Lean `String` (when the code manipulates
  text) or as their byte sequences (when the code manipulates `&[u8]`).
* The external curve25519/ed25519 primitives (the dalek crates) are an
  external dependency of the repository; they are modelled by an abstract
  `CurveModel` whose fields are the primitive operations and whose `Prop`
  fields are exactly their documented contracts (point compression
  round-trips, the Montgomery ladder computes the u-coordinate of the
  scalar multiple, the basepoint has order `ord`).  All repository code is
  embedded concretely on top of that model.
* SQLite (in `storage.rs`) is modelled as a list of rows with the
  `PRIMARY KEY` insert semantics of the `messages` table.
-/

set_option maxRecDepth 20000

namespace Gumnam

/-! ## Bytes -/

abbrev Byte := Fin 256

abbrev Bytes := List Byte

def byte (n : Nat) : Byte := ⟨n % 256, Nat.mod_lt _ (by omega)⟩

@[simp] theorem byte_val (n : Nat) : (byte n).val = n % 256 := rfl

/-- Little-endian interpretation of a byte string as a natural number
(`curve25519-dalek` scalars are little-endian). -/
def bytesToNat : Bytes → Nat
  | [] => 0
  | b :: r => b.val + 256 * bytesToNat r

/-- Little-endian serialisation of a natural number into `k` bytes. -/
def natToBytesLE : Nat → Nat → Bytes
  | 0, _ => []
  | k + 1, n => byte n :: natToBytesLE k (n / 256)

theorem bytesToNat_natToBytesLE (k n : Nat) :
    bytesToNat (natToBytesLE k n) = n % 256 ^ k := by
  induction k generalizing n with
  | zero => simp [natToBytesLE, bytesToNat, Nat.mod_one]
  | succ k ih =>
    rw [natToBytesLE, bytesToNat, ih, pow_succ, mul_comm (256 ^ k) 256, Nat.mod_mul]
    simp [byte]

theorem byte_eq_of_val (x : Nat) (y : Byte) (h : x % 256 = y.val) : byte x = y :=
  Fin.ext h

instance {e a : Type} [DecidableEq e] [DecidableEq a] : DecidableEq (Except e a) := fun x y =>
  match x, y with
  | .ok x, .ok y =>
    match decEq x y with
    | isTrue h => isTrue (h ▸ rfl)
    | isFalse h => isFalse (fun hh => h (Except.ok.inj hh))
  | .error x, .error y =>
    match decEq x y with
    | isTrue h => isTrue (h ▸ rfl)
    | isFalse h => isFalse (fun hh => h (Except.error.inj hh))
  | .ok _, .error _ => isFalse Except.noConfusion
  | .error _, .ok _ => isFalse Except.noConfusion

/-- ASCII bytes of a Lean string (models Rust `str::as_bytes`; exact for the
ASCII data handled by the protocol — code points above 255 are reduced). -/
def strBytes (s : String) : Bytes := s.data.map (fun c => byte c.toNat)

/-! ## base64 (the `base64` crate, `STANDARD` engine: padded, canonical) -/

def b64Char (v : Nat) : Char :=
  Char.ofNat (if v < 26 then v + 65 else if v < 52 then v + 71
              else if v < 62 then v - 4 else if v = 62 then 43 else 47)

def b64Val (c : Char) : Option Nat :=
  let n := c.toNat
  if 65 ≤ n ∧ n ≤ 90 then some (n - 65)
  else if 97 ≤ n ∧ n ≤ 122 then some (n - 71)
  else if 48 ≤ n ∧ n ≤ 57 then some (n + 4)
  else if n = 43 then some 62
  else if n = 47 then some 63
  else none

def b64EncodeCore : Bytes → List Char
  | [] => []
  | [a] => [b64Char (a.val / 4), b64Char (a.val % 4 * 16), '=', '=']
  | [a, b] => [b64Char (a.val / 4), b64Char (a.val % 4 * 16 + b.val / 16),
               b64Char (b.val % 16 * 4), '=']
  | a :: b :: c :: rest =>
      b64Char (a.val / 4) :: b64Char (a.val % 4 * 16 + b.val / 16) ::
      b64Char (b.val % 16 * 4 + c.val / 64) :: b64Char (c.val % 64) :: b64EncodeCore rest

def base64Encode (l : Bytes) : String := String.mk (b64EncodeCore l)

/-- Decoder of the `STANDARD` engine: 4-character groups, `=` padding only at
the end, canonical (unused trailing bits must be zero). -/
def b64DecodeCore : List Char → Option Bytes
  | [] => some []
  | c1 :: c2 :: c3 :: c4 :: rest =>
    if c3 = '=' then
      if c4 = '=' ∧ rest = [] then
        match b64Val c1, b64Val c2 with
        | some v1, some v2 =>
            if v2 % 16 = 0 then some [byte (v1 * 4 + v2 / 16)] else none
        | _, _ => none
      else none
    else if c4 = '=' then
      if rest = [] then
        match b64Val c1, b64Val c2, b64Val c3 with
        | some v1, some v2, some v3 =>
            if v3 % 4 = 0 then
              some [byte (v1 * 4 + v2 / 16), byte (v2 % 16 * 16 + v3 / 4)]
            else none
        | _, _, _ => none
      else none
    else
      match b64Val c1, b64Val c2, b64Val c3, b64Val c4 with
      | some v1, some v2, some v3, some v4 =>
        match b64DecodeCore rest with
        | some r => some (byte (v1 * 4 + v2 / 16) :: byte (v2 % 16 * 16 + v3 / 4) ::
                          byte (v3 % 4 * 64 + v4) :: r)
        | none => none
      | _, _, _, _ => none
  | _ => none

def base64Decode (s : String) : Option Bytes := b64DecodeCore s.data

theorem b64Val_b64Char : ∀ v : Nat, v < 64 → b64Val (b64Char v) = some v := by decide

theorem b64Char_ne_eq : ∀ v : Nat, v < 64 → b64Char v ≠ '=' := by decide

theorem b64_roundtrip_core (l : Bytes) : b64DecodeCore (b64EncodeCore l) = some l := by
  induction l using b64EncodeCore.induct with
  | case1 => rfl
  | case2 a =>
    have h1 := a.isLt
    have e1 : b64Val (b64Char (a.val / 4)) = some (a.val / 4) := b64Val_b64Char _ (by omega)
    have e2 : b64Val (b64Char (a.val % 4 * 16)) = some (a.val % 4 * 16) :=
      b64Val_b64Char _ (by omega)
    have m2 : a.val % 4 * 16 % 16 = 0 := by omega
    simp only [b64EncodeCore, b64DecodeCore, e1, e2, m2, if_pos rfl, and_self, if_true,
      reduceIte]
    simp only [Option.some.injEq, List.cons.injEq, and_true]
    exact byte_eq_of_val _ _ (by omega)
  | case3 a b =>
    have h1 := a.isLt
    have h2 := b.isLt
    have e1 : b64Val (b64Char (a.val / 4)) = some (a.val / 4) := b64Val_b64Char _ (by omega)
    have e2 : b64Val (b64Char (a.val % 4 * 16 + b.val / 16)) =
        some (a.val % 4 * 16 + b.val / 16) := b64Val_b64Char _ (by omega)
    have e3 : b64Val (b64Char (b.val % 16 * 4)) = some (b.val % 16 * 4) :=
      b64Val_b64Char _ (by omega)
    have n3 : b64Char (b.val % 16 * 4) ≠ '=' := b64Char_ne_eq _ (by omega)
    have m3 : b.val % 16 * 4 % 4 = 0 := by omega
    simp only [b64EncodeCore, b64DecodeCore, e1, e2, e3, n3, m3, if_pos rfl, if_false,
      reduceIte]
    simp only [Option.some.injEq, List.cons.injEq, and_true]
    exact ⟨byte_eq_of_val _ _ (by omega), byte_eq_of_val _ _ (by omega)⟩
  | case4 a b c rest ih =>
    have h1 := a.isLt
    have h2 := b.isLt
    have h3 := c.isLt
    have e1 : b64Val (b64Char (a.val / 4)) = some (a.val / 4) := b64Val_b64Char _ (by omega)
    have e2 : b64Val (b64Char (a.val % 4 * 16 + b.val / 16)) =
        some (a.val % 4 * 16 + b.val / 16) := b64Val_b64Char _ (by omega)
    have e3 : b64Val (b64Char (b.val % 16 * 4 + c.val / 64)) =
        some (b.val % 16 * 4 + c.val / 64) := b64Val_b64Char _ (by omega)
    have e4 : b64Val (b64Char (c.val % 64)) = some (c.val % 64) := b64Val_b64Char _ (by omega)
    have n3 : b64Char (b.val % 16 * 4 + c.val / 64) ≠ '=' := b64Char_ne_eq _ (by omega)
    have n4 : b64Char (c.val % 64) ≠ '=' := b64Char_ne_eq _ (by omega)
    simp only [b64EncodeCore, b64DecodeCore, e1, e2, e3, e4, n3, n4, ih, if_false, reduceIte]
    simp only [Option.some.injEq, List.cons.injEq, and_true]
    exact ⟨byte_eq_of_val _ _ (by omega), byte_eq_of_val _ _ (by omega),
      byte_eq_of_val _ _ (by omega)⟩

theorem base64_roundtrip (l : Bytes) : base64Decode (base64Encode l) = some l := by
  simpa [base64Decode, base64Encode] using b64_roundtrip_core l

/-! ## base32 (the `base32` crate, `Alphabet::RFC4648 { padding: false }`) -/

/-- Table `RFC4648_INV_ALPHABET` from the `base32` crate: inverse lookup table
indexed by `byte - '0'`; `-1` marks an invalid character. -/
def b32InvAlphabet : List Int :=
  [-1, -1, 26, 27, 28, 29, 30, 31, -1, -1, -1, -1, -1, 0, -1, -1, -1,
   0, 1, 2, 3, 4, 5, 6, 7, 8, 9, 10, 11, 12, 13, 14, 15, 16, 17, 18,
   19, 20, 21, 22, 23, 24, 25]

/-- One input character through `to_ascii_uppercase`, `wrapping_sub(b'0')`
and the inverse table.  Non-ASCII characters are invalid (in the crate the
corresponding UTF-8 bytes all miss the table). -/
def b32CharVal (c : Char) : Option Nat :=
  let n := c.toNat
  if n ≥ 128 then none
  else
    let upper := if 97 ≤ n ∧ n ≤ 122 then n - 32 else n
    match b32InvAlphabet.get? ((upper + 256 - 48) % 256) with
    | some v => if v = -1 then none else some v.toNat
    | none => none

/-- The five output bytes of one (zero-padded) 8-character group, with the
crate's `u8` shifts (which wrap at 8 bits). -/
def b32Chunk5 (vals : List Nat) : Bytes :=
  let g := fun i => vals.getD i 0
  [byte (g 0 * 8 + g 1 / 4),
   byte (g 1 % 4 * 64 + g 2 * 2 + g 3 / 16),
   byte (g 3 % 16 * 16 + g 4 / 2),
   byte (g 4 % 2 * 128 + g 5 * 4 + g 6 / 8),
   byte (g 6 % 8 * 32 + g 7)]

def b32GroupsAux : Nat → List Char → Option Bytes
  | _, [] => some []
  | 0, _ :: _ => none
  | fuel + 1, c :: rest =>
    match ((c :: rest).take 8).mapM b32CharVal with
    | none => none
    | some vals =>
      match b32GroupsAux fuel (rest.drop 7) with
      | none => none
      | some r => some (b32Chunk5 vals ++ r)

/-- The chunk loop of the crate's `decode` (fuel equal to the input length
is always sufficient: every group consumes at least one character). -/
def b32Groups (l : List Char) : Option Bytes := b32GroupsAux l.length l

/-- Model of `base32::decode` with `Alphabet::RFC4648`, `padding: false`. -/
def base32Decode (data : List Char) : Option Bytes :=
  let trailingEq := min ((data.reverse.takeWhile (· = '=')).length) (min 6 data.length)
  let unpaddedLen := data.length - trailingEq
  let outputLength := unpaddedLen * 5 / 8
  match b32Groups data with
  | none => none
  | some bytes => some (bytes.take outputLength)

/-! ## String helpers (`str::trim`, `str::trim_end_matches`, `to_lowercase`) -/

def trimChars (l : List Char) : List Char :=
  ((l.dropWhile Char.isWhitespace).reverse.dropWhile Char.isWhitespace).reverse

def trimEndOnionAux : Nat → List Char → List Char
  | 0, l => l
  | fuel + 1, l =>
    if ".onion".data.isSuffixOf l then trimEndOnionAux fuel (l.take (l.length - 6)) else l

/-- Rust `trim_end_matches(".onion")`: removes every trailing repetition of the
suffix (fuel equal to the length is always sufficient: each removal drops
six characters). -/
def trimEndOnion (l : List Char) : List Char := trimEndOnionAux l.length l

/-- ASCII model of `str::to_lowercase` (exact on the ASCII data relevant to
addresses; decoding of a base32 address fails on any non-ASCII character
regardless). -/
def lowerChar (c : Char) : Char :=
  if 65 ≤ c.toNat ∧ c.toNat ≤ 90 then Char.ofNat (c.toNat + 32) else c

/-- The normalisation `onion.trim().trim_end_matches(".onion").to_lowercase()` from
`CryptoHandler::onion_to_pubkey`. -/
def normalizeOnion (l : List Char) : List Char :=
  (trimEndOnion (trimChars l)).map lowerChar

/-! ## UTF-8 (`String::from_utf8` validity, `String::from_utf8_lossy`) -/

def utf8Cont (b : Byte) : Bool := decide (128 ≤ b.val ∧ b.val < 192)

/-- Strict UTF-8 validity (the check performed by `String::from_utf8`),
with fuel equal to the input length. -/
def utf8ValidAux : Nat → Bytes → Bool
  | 0, l => l.isEmpty
  | _ + 1, [] => true
  | fuel + 1, b :: rest =>
    let n := b.val
    if n < 128 then utf8ValidAux fuel rest
    else if n < 194 then false
    else if n < 224 then
      match rest with
      | b2 :: r2 => utf8Cont b2 && utf8ValidAux fuel r2
      | [] => false
    else if n < 240 then
      match rest with
      | b2 :: b3 :: r3 =>
        let lo := if n = 224 then 160 else 128
        let hi := if n = 237 then 160 else 192
        decide (lo ≤ b2.val ∧ b2.val < hi) && utf8Cont b3 && utf8ValidAux fuel r3
      | _ => false
    else if n < 245 then
      match rest with
      | b2 :: b3 :: b4 :: r4 =>
        let lo := if n = 240 then 144 else 128
        let hi := if n = 244 then 144 else 192
        decide (lo ≤ b2.val ∧ b2.val < hi) && utf8Cont b3 && utf8Cont b4 &&
          utf8ValidAux fuel r4
      | _ => false
    else false

def utf8Valid (l : Bytes) : Bool := utf8ValidAux l.length l

/-- Rust `String::from_utf8_lossy`: decodes, replacing ill-formed sequences with
U+FFFD; fuel equal to the input length. -/
def utf8LossyAux : Nat → Bytes → List Char
  | 0, _ => []
  | _ + 1, [] => []
  | fuel + 1, b :: rest =>
    let n := b.val
    let repl : Char := Char.ofNat 0xFFFD
    if n < 128 then Char.ofNat n :: utf8LossyAux fuel rest
    else if n < 194 then repl :: utf8LossyAux fuel rest
    else if n < 224 then
      match rest with
      | b2 :: r2 =>
        if utf8Cont b2 then
          Char.ofNat ((n - 192) * 64 + (b2.val - 128)) :: utf8LossyAux fuel r2
        else repl :: utf8LossyAux fuel rest
      | [] => [repl]
    else if n < 240 then
      match rest with
      | b2 :: b3 :: r3 =>
        let lo := if n = 224 then 160 else 128
        let hi := if n = 237 then 160 else 192
        if decide (lo ≤ b2.val ∧ b2.val < hi) && utf8Cont b3 then
          Char.ofNat ((n - 224) * 4096 + (b2.val - 128) * 64 + (b3.val - 128)) ::
            utf8LossyAux fuel r3
        else repl :: utf8LossyAux fuel rest
      | _ => repl :: utf8LossyAux fuel rest.tail
    else if n < 245 then
      match rest with
      | b2 :: b3 :: b4 :: r4 =>
        let lo := if n = 240 then 144 else 128
        let hi := if n = 244 then 144 else 192
        if decide (lo ≤ b2.val ∧ b2.val < hi) && utf8Cont b3 && utf8Cont b4 then
          Char.ofNat ((n - 240) * 262144 + (b2.val - 128) * 4096 +
            (b3.val - 128) * 64 + (b4.val - 128)) :: utf8LossyAux fuel r4
        else repl :: utf8LossyAux fuel rest
      | _ => repl :: utf8LossyAux fuel rest
    else repl :: utf8LossyAux fuel rest

def utf8Lossy (l : Bytes) : List Char := utf8LossyAux l.length l

/-! ## The curve model

The dalek crates (`curve25519-dalek`, `ed25519-dalek`, `x25519-dalek`) and
the symmetric primitives (`sha2`, `hkdf`, `chacha20poly1305`) are external
dependencies.  They are modelled by a structure whose operation fields are
abstract and whose `Prop` fields state exactly the documented contracts the
repository relies on:

* `P` with `[AddCommGroup P]` is the group of Edwards curve points;
  `g` is `ED25519_BASEPOINT_TABLE`'s point and `ord` its (prime) order ℓ;
* `compress`/`decompress` are `EdwardsPoint::compress` /
  `CompressedEdwardsY::decompress` (round-trip, injectivity, 32 bytes);
* `toMontgomery` is `EdwardsPoint::to_montgomery().to_bytes()`
  (the birational map to the Montgomery u-coordinate);
* `montMul n u` is `MontgomeryPoint(u)` multiplied by the scalar `n`
  (the x-only ladder); its contract is that on curve points it computes
  the u-coordinate of the scalar multiple;
* `hash` is SHA-512, `hkdf` is the fixed HKDF-SHA256 expansion used by
  `crypto.rs`, and `aeadSeal`/`aeadOpen` are ChaCha20-Poly1305 with the
  AEAD round-trip contract.
-/

structure CurveModel (P : Type) [AddCommGroup P] [DecidableEq P] where
  g : P
  ord : Nat
  compress : P → Bytes
  decompress : Bytes → Option P
  toMontgomery : P → Bytes
  montMul : Nat → Bytes → Bytes
  hash : Bytes → Bytes
  hkdf : Bytes → Bytes
  aeadSeal : Bytes → Bytes → Bytes → Bytes
  aeadOpen : Bytes → Bytes → Bytes → Option Bytes
  ord_pos : 0 < ord
  ord_lt : ord < 256 ^ 32
  ord_smul : ord • g = 0
  decompress_compress : ∀ Q : P, decompress (compress Q) = some Q
  compress_injective : ∀ Q R : P, compress Q = compress R → Q = R
  compress_length : ∀ Q : P, (compress Q).length = 32
  toMontgomery_length : ∀ Q : P, (toMontgomery Q).length = 32
  montMul_toMontgomery : ∀ (n : Nat) (Q : P), montMul n (toMontgomery Q) = toMontgomery (n • Q)
  aeadOpen_aeadSeal : ∀ k n m, aeadOpen k n (aeadSeal k n m) = some m

variable {P : Type} [AddCommGroup P] [DecidableEq P]

/-- In any group, a multiple of `g` only depends on the scalar mod the
order of `g`. -/
theorem CurveModel.nsmul_mod (M : CurveModel P) (n : Nat) :
    n • M.g = (n % M.ord) • M.g := by
  conv_lhs => rw [← Nat.div_add_mod n M.ord]
  rw [add_nsmul, mul_nsmul, M.ord_smul, smul_zero, zero_add]

/-! ## `src/crypto.rs` -/

inductive CryptoError
  | keyGeneration (s : String)
  | encryption (s : String)
  | decryption (s : String)
  | keyLoading (s : String)
  | signature (s : String)
deriving DecidableEq

/-- Model of `ed25519_dalek::VerifyingKey`: the compressed bytes as parsed together
with the decompressed Edwards point. -/
structure VerifyingKey (P : Type) where
  bytes : Bytes
  point : P
deriving DecidableEq

/-- The state of `CryptoHandler` (the unused placeholder `SigningKey` is
kept as its 32-byte seed). -/
structure CryptoHandler (P : Type) where
  onionSigningKeySeed : Option Bytes
  rawTorExpandedKey : Option Bytes
  torVerifyingKey : Option (VerifyingKey P)
deriving DecidableEq

def CryptoHandler.new : CryptoHandler P := ⟨none, none, none⟩

/-- Model of `curve25519_dalek::scalar::clamp_integer` on a 32-byte string
(clear the 3 low bits of byte 0; clear bit 7 and set bit 6 of byte 31). -/
def clampBytes (l : Bytes) : Bytes :=
  l.mapIdx fun i b =>
    if i = 0 then byte (b.val &&& 248)
    else if i = 31 then byte (b.val &&& 127 ||| 64) else b

/-- Embedding of `CryptoHandler::onion_to_pubkey` (the error strings are the `anyhow!`
messages of the source; the dalek parse error is abbreviated). -/
def onionToPubkey (M : CurveModel P) (onion : String) : Except String (VerifyingKey P) :=
  if (normalizeOnion onion.data).length ≠ 56 then
    .error "Invalid onion address length (must be v3)"
  else
    match base32Decode (normalizeOnion onion.data) with
    | none => .error "Failed to decode base32 onion address"
    | some decoded =>
      if decoded.length ≠ 35 then .error "Invalid decoded onion length"
      else if decoded.getD 34 (byte 0) ≠ byte 3 then
        .error "Not a v3 onion address (invalid version byte)"
      else
        match M.decompress (decoded.take 32) with
        | none => .error "invalid point encoding"
        | some pt => .ok ⟨decoded.take 32, pt⟩

/-- Embedding of `CryptoHandler::set_onion_signing_key`: stores the raw 64-byte expanded
key; derives the verifying key as `from_bytes_mod_order(scalar) * G` and
re-parses its compression through `VerifyingKey::from_bytes`. -/
def setOnionSigningKey (M : CurveModel P) (_self : CryptoHandler P) (keyBytes : Bytes) :
    Except CryptoError (CryptoHandler P) :=
  if keyBytes.length ≠ 64 then
    .error (.signature "Invalid Tor Ed25519 expanded key length (expected 64)")
  else
    match M.decompress (M.compress ((bytesToNat (keyBytes.take 32) % M.ord) • M.g)) with
    | none => .error (.signature "Invalid public key")
    | some pt =>
      .ok { onionSigningKeySeed := some (keyBytes.take 32),
            rawTorExpandedKey := some keyBytes,
            torVerifyingKey := some ⟨M.compress ((bytesToNat (keyBytes.take 32) % M.ord) • M.g), pt⟩ }

/-- Embedding of `CryptoHandler::get_x25519_secret_from_tor_key`. -/
def getX25519SecretFromTorKey (self : CryptoHandler P) : Except CryptoError Bytes :=
  match self.rawTorExpandedKey with
  | none => .error (.decryption "Tor key not loaded")
  | some raw => .ok (raw.take 32)

/-- Embedding of `CryptoHandler::ed25519_pk_to_x25519`: decompress the Edwards point
from the verifying key's bytes and take the Montgomery u-coordinate;
all-zero on decompression failure. -/
def ed25519PkToX25519 (M : CurveModel P) (edPk : VerifyingKey P) : Bytes :=
  match M.decompress edPk.bytes with
  | some edwardsPoint => M.toMontgomery edwardsPoint
  | none => List.replicate 32 (byte 0)

/-- Model of `x25519_dalek::PublicKey::from(&StaticSecret)`:
`EdwardsPoint::mul_base_clamped(bytes).to_montgomery()`. -/
def xPublicKeyFromSecret (M : CurveModel P) (sk : Bytes) : Bytes :=
  M.toMontgomery (bytesToNat (clampBytes sk) • M.g)

/-- Model of `StaticSecret::diffie_hellman`: the Montgomery ladder on the peer's
u-coordinate with the clamped scalar. -/
def diffieHellman (M : CurveModel P) (sk : Bytes) (theirPublic : Bytes) : Bytes :=
  M.montMul (bytesToNat (clampBytes sk)) theirPublic

/-- Struct `EncryptedData` (the ECIES envelope). -/
structure EncryptedData where
  encryptedMessage : String
  ephemeralPublicKey : String
  nonce : String
deriving DecidableEq

/-- Embedding of `CryptoHandler::encrypt_message`.  The two random samplings
(`StaticSecret::random_from_rng` and the 12-byte nonce) are passed as the
arguments `ephBytes` and `nonceBytes`.  (`Hkdf::expand` to 32 bytes and
`ChaCha20Poly1305::new_from_slice` on the 32-byte output cannot fail and
those error paths are not modelled.) -/
def encryptMessage (M : CurveModel P) (_self : CryptoHandler P) (message : Bytes)
    (recipientOnion : String) (ephBytes nonceBytes : Bytes) :
    Except CryptoError EncryptedData :=
  match onionToPubkey M recipientOnion with
  | .error e => .error (.encryption ("Invalid recipient onion: " ++ e))
  | .ok recipientEdPk =>
    let recipientXPk := ed25519PkToX25519 M recipientEdPk
    let ephemeralPk := xPublicKeyFromSecret M ephBytes
    let sharedSecret := diffieHellman M ephBytes recipientXPk
    let okm := M.hkdf sharedSecret
    let encrypted := M.aeadSeal okm nonceBytes message
    .ok { encryptedMessage := base64Encode encrypted,
          ephemeralPublicKey := base64Encode ephemeralPk,
          nonce := base64Encode nonceBytes }

/-- Embedding of `CryptoHandler::decrypt_message` (returns the UTF-8 bytes of the
decrypted string; `String::from_utf8` is the final validity check). -/
def decryptMessage (M : CurveModel P) (self : CryptoHandler P) (encryptedData : EncryptedData) :
    Except CryptoError Bytes :=
  match getX25519SecretFromTorKey self with
  | .error e => .error e
  | .ok ourXSkBytes =>
    match base64Decode encryptedData.ephemeralPublicKey with
    | none => .error (.decryption "base64 decode error")
    | some ephPkBytes =>
      if ephPkBytes.length ≠ 32 then
        .error (.decryption "Invalid ephemeral public key length")
      else
        let sharedSecret := diffieHellman M ourXSkBytes ephPkBytes
        let okm := M.hkdf sharedSecret
        match base64Decode encryptedData.nonce with
        | none => .error (.decryption "base64 decode error")
        | some nonceBytes =>
          match base64Decode encryptedData.encryptedMessage with
          | none => .error (.decryption "base64 decode error")
          | some ciphertext =>
            match M.aeadOpen okm nonceBytes ciphertext with
            | none => .error (.decryption "aead error")
            | some decrypted =>
              if utf8Valid decrypted then .ok decrypted
              else .error (.decryption "invalid utf-8")

/-- Embedding of `CryptoHandler::sign_with_onion_key` on the message's bytes:
`ExpandedSecretKey::from_bytes` (clamp, then reduce mod ℓ) followed by
`ed25519_dalek::hazmat::raw_sign::<Sha512>`. -/
def signWithOnionKey (M : CurveModel P) (self : CryptoHandler P) (message : Bytes) :
    Except CryptoError String :=
  match self.rawTorExpandedKey with
  | none => .error (.signature "Tor key not loaded")
  | some rawKey =>
    match self.torVerifyingKey with
    | none => .error (.signature "Verifying key not computed")
    | some verifyingKey =>
      let scalar := bytesToNat (clampBytes (rawKey.take 32)) % M.ord
      let hashUpper := rawKey.drop 32
      let r := bytesToNat (M.hash (hashUpper ++ message)) % M.ord
      let bigR := M.compress (r • M.g)
      let k := bytesToNat (M.hash (bigR ++ verifyingKey.bytes ++ message)) % M.ord
      let s := (k * scalar + r) % M.ord
      .ok (base64Encode (bigR ++ natToBytesLE 32 s))

/-- Embedding of `CryptoHandler::verify_with_onion_address`:
decode the address, base64-decode the signature, `Signature::from_slice`
(64 bytes), then `VerifyingKey::verify` — parse `s` canonically, recompute
the challenge and compare `k•(-A) + s•G` against `R`; `Ok(bool)` only for
the final check, `Err` for every earlier failure. -/
def verifyWithOnionAddress (M : CurveModel P) (_self : CryptoHandler P) (message : Bytes)
    (signatureB64 : String) (onionAddress : String) : Except CryptoError Bool :=
  match onionToPubkey M onionAddress with
  | .error e => .error (.signature e)
  | .ok pubKey =>
    match base64Decode signatureB64 with
    | none => .error (.signature "base64 decode error")
    | some sigBytes =>
      if sigBytes.length ≠ 64 then .error (.signature "signature length error")
      else
        let bigR := sigBytes.take 32
        let sN := bytesToNat (sigBytes.drop 32)
        if sN < M.ord then
          let k := bytesToNat (M.hash (bigR ++ pubKey.bytes ++ message)) % M.ord
          let expectedR := k • (-pubKey.point) + sN • M.g
          .ok (decide (M.compress expectedR = bigR))
        else .ok false

/-! ## `src/message.rs` -/

inductive MessageType
  | text | handshake | ack | keyExchange | ping | pong | image | audio | file | ipfs
deriving DecidableEq

def MessageType.asStr : MessageType → String
  | .text => "text"
  | .handshake => "handshake"
  | .ack => "ack"
  | .keyExchange => "key_exchange"
  | .ping => "ping"
  | .pong => "pong"
  | .image => "image"
  | .audio => "audio"
  | .file => "file"
  | .ipfs => "ipfs"

/-- Model of `serde_json::Value`.  An object's fields are listed in the iteration
order of the underlying map, which for the payload `HashMap` of a `Message`
is an arbitrary, process-dependent permutation of its entries. -/
inductive JValue
  | null
  | bool (b : Bool)
  | num (n : Int)
  | str (s : String)
  | obj (fields : List (String × JValue))

/-- The `Message` struct.  `payload` is the `HashMap<String, serde_json::Value>`
presented in its iteration order. -/
structure Message where
  id : String
  msgType : MessageType
  payload : List (String × JValue)
  timestamp : Int
  senderId : Option String
  recipientId : Option String
  signature : Option String
  version : String

/-- Two messages carry the same semantic content: equal fields, and equal
payload *maps* (the same multiset of key-value entries, irrespective of
iteration order). -/
def Message.semEq (m1 m2 : Message) : Prop :=
  m1.id = m2.id ∧ m1.msgType = m2.msgType ∧
  (m1.payload : Multiset (String × JValue)) = (m2.payload : Multiset (String × JValue)) ∧
  m1.timestamp = m2.timestamp ∧ m1.senderId = m2.senderId ∧ m1.recipientId = m2.recipientId

/-- Rust `Debug` of a `String` (quoting; escape sequences are not needed by
any payload appearing in the development). -/
def debugStr (s : String) : String := "\"" ++ s ++ "\""

mutual

/-- Rust `Debug` for `serde_json::Value`. -/
def JValue.debugFmt : JValue → String
  | .null => "Null"
  | .bool b => if b then "Bool(true)" else "Bool(false)"
  | .num n => "Number(" ++ toString n ++ ")"
  | .str s => "String(" ++ debugStr s ++ ")"
  | .obj fields => "Object \x7b" ++ debugEntries fields ++ "\x7d"

/-- Rust `Debug` for a string-keyed map: entries in iteration order, separated
by `", "`. -/
def debugEntries : List (String × JValue) → String
  | [] => ""
  | [(k, v)] => debugStr k ++ ": " ++ v.debugFmt
  | (k, v) :: e :: rest => debugStr k ++ ": " ++ v.debugFmt ++ ", " ++ debugEntries (e :: rest)

end

/-- Rust `Debug` of the payload `HashMap`. -/
def payloadDebug (p : List (String × JValue)) : String := "\x7b" ++ debugEntries p ++ "\x7d"

/-- Rust `Debug` of `Option<String>`. -/
def optionDebug : Option String → String
  | none => "None"
  | some s => "Some(" ++ debugStr s ++ ")"

/-- The canonicalisation signed by `MessageProtocol::sign_message` and
re-derived by `verify_message`:
`format!("{}:{}:{:?}:{}:{:?}:{:?}", id, type, payload, ts, sender, recipient)`. -/
def dataToSign (m : Message) : String :=
  m.id ++ ":" ++ m.msgType.asStr ++ ":" ++ payloadDebug m.payload ++ ":" ++
    toString m.timestamp ++ ":" ++ optionDebug m.senderId ++ ":" ++ optionDebug m.recipientId

/-- Embedding of `MessageProtocol::sign_message`. -/
def signMessage (M : CurveModel P) (msg : Message) (crypto : CryptoHandler P) :
    Except CryptoError Message :=
  match signWithOnionKey M crypto (strBytes (dataToSign msg)) with
  | .error e => .error e
  | .ok signature => .ok { msg with signature := some signature }

/-- Embedding of `MessageProtocol::verify_message` (the `_unused_pk_pem` argument of the
source is dropped): `false` when the signature or the sender is missing and
on every error of `verify_with_onion_address`. -/
def verifyMessage (M : CurveModel P) (msg : Message) (crypto : CryptoHandler P) : Bool :=
  match msg.signature with
  | none => false
  | some signature =>
    match msg.senderId with
    | none => false
    | some senderOnion =>
      match verifyWithOnionAddress M crypto (strBytes (dataToSign msg)) signature senderOnion with
      | .ok valid => valid
      | .error _ => false

/-- Embedding of `MessageProtocol::validate_message`; `now` is `Utc::now().timestamp()`. -/
def validateMessage (now : Int) (msg : Message) : Bool :=
  if msg.id.isEmpty then false
  else if msg.timestamp > now + 300 then false
  else if msg.version ≠ "1.0" then false
  else true

/-! ## `src/storage.rs` -/

inductive StorageError
  | database (s : String)
  | serialization (s : String)
deriving DecidableEq

/-- A row of the `messages` table (`id` is `PRIMARY KEY`; `is_read`
defaults to 0). -/
structure StoredRow where
  id : String
  msgType : String
  senderId : Option String
  recipientId : Option String
  payload : String
  timestamp : Int
  isSent : Bool
  isRead : Bool
deriving DecidableEq

mutual

/-- Compact `serde_json::to_string` for the payload column (string escapes
are not needed by any payload appearing in the development). -/
def JValue.toJsonString : JValue → String
  | .null => "null"
  | .bool b => if b then "true" else "false"
  | .num n => toString n
  | .str s => debugStr s
  | .obj fields => "\x7b" ++ jsonEntries fields ++ "\x7d"

def jsonEntries : List (String × JValue) → String
  | [] => ""
  | [(k, v)] => debugStr k ++ ":" ++ v.toJsonString
  | (k, v) :: e :: rest => debugStr k ++ ":" ++ v.toJsonString ++ "," ++ jsonEntries (e :: rest)

end

/-- Embedding of `MessageStorage::save_message`: `INSERT` into a table whose `id` is the
primary key; a `ConstraintViolation` (duplicate id) is mapped to
`Ok(false)` and leaves the table unchanged. -/
def saveMessage (db : List StoredRow) (msgId msgType : String)
    (senderId recipientId : Option String) (payload : JValue) (timestamp : Int)
    (isSent : Bool) : Except StorageError (Bool × List StoredRow) :=
  let payloadStr := payload.toJsonString
  if db.any (fun r => r.id = msgId) then .ok (false, db)
  else .ok (true, db ++ [{ id := msgId, msgType := msgType, senderId := senderId,
                           recipientId := recipientId, payload := payloadStr,
                           timestamp := timestamp, isSent := isSent, isRead := false }])

/-! ## `src/tor_service.rs`: `handle_client` -/

inductive ClientAction
  | noData
  | http
  | message (s : String)
deriving DecidableEq

def bytesStartWith (pre : Bytes) (data : Bytes) : Bool :=
  decide (data.take pre.length = pre)

/-- Embedding of `handle_client` on the bytes accumulated from one connection: empty
reads end silently, HTTP verbs go to the HTTP handler, and everything else
is handed (lossily decoded and trimmed) to the message callback and
acknowledged with the literal `"OK\n"` — unconditionally. -/
def handleClient (data : Bytes) : ClientAction × Option String :=
  if data.isEmpty then (.noData, none)
  else if bytesStartWith (strBytes "GET ") data || bytesStartWith (strBytes "POST ") data ||
      bytesStartWith (strBytes "HEAD ") data then
    (.http, none)
  else
    (.message (String.mk (trimChars (utf8Lossy data))), some "OK\n")

/-! ## `src/cli.rs`: `handle_incoming_message`

The JSON parsing layer is represented by `InboundParse`, the outcome of the
two `serde_json` parses performed by the handler; the dispatch on a parsed
protocol message is embedded concretely.  (The source matches
`MessageType::Text | MessageType::Encrypted`; no `Encrypted` variant exists
in `message.rs`, so the arm is the `Text` arm.) -/

/-- Rust `v.as_bool()`. -/
def JValue.asBool : JValue → Option Bool
  | .bool b => some b
  | _ => none

/-- Model of `serde_json::from_value::<EncryptedData>`: an object carrying the three
string fields (extra fields are ignored by serde's default behaviour). -/
def jvToEncryptedData : JValue → Option EncryptedData
  | .obj fields =>
    (match fields.lookup "encrypted_message", fields.lookup "ephemeral_public_key",
           fields.lookup "nonce" with
     | some (.str em), some (.str ep), some (.str n) => some ⟨em, ep, n⟩
     | _, _, _ => none)
  | _ => none

inductive CliOutcome
  | droppedNonJson
  | webDisplayed (sender text : String)
  | droppedBadFormat
  | droppedNoSender
  | handshakeHandled (sender : String) (isResponse : Bool)
  | rejectedUnencrypted (sender : String)
  | rejectedNoData (sender : String)
  | rejectedBadData (sender : String)
  | textSaved (sender : String) (text : Bytes) (verified : Bool)
  | decryptFailed (sender : String) (verified : Bool)
  | ignored
deriving DecidableEq

/-- The dispatch of `handle_incoming_message` on a message that parsed as a
protocol message (`cli.rs:448-575`).  `handshakeHandled` upserts the peer
and, when `is_response` is false, spawns the signed response handshake;
`textSaved` persists the decrypted text via `save_message`; every other
outcome leaves the store and peer state unchanged. -/
def cliHandleProtocolMessage (M : CurveModel P) (crypto : CryptoHandler P)
    (msg : Message) : CliOutcome :=
  match msg.senderId with
  | none => .droppedNoSender
  | some sender =>
    match msg.msgType with
    | .handshake =>
      let isResponse := ((msg.payload.lookup "is_response").bind JValue.asBool).getD false
      .handshakeHandled sender isResponse
    | .text =>
      let verified := verifyMessage M msg crypto
      if ((msg.payload.lookup "encrypted").bind JValue.asBool) ≠ some true then
        .rejectedUnencrypted sender
      else
        match (msg.payload.lookup "data") with
        | none => .rejectedNoData sender
        | some d =>
          match jvToEncryptedData d with
          | none => .rejectedBadData sender
          | some encryptedData =>
            match decryptMessage M crypto encryptedData with
            | .ok text => .textSaved sender text verified
            | .error _ => .decryptFailed sender verified
    | _ => .ignored

/-- The result of the two parses performed on an inbound frame. -/
inductive InboundParse
  | notJson
  | webMessage (sender text : Option String)
  | notProtocol
  | protocol (m : Message)

/-- Embedding of `handle_incoming_message` stratified over the parse outcome: non-JSON
frames and JSON frames that are not protocol messages are dropped with a
log line; `web_message` frames are displayed unauthenticated; protocol
messages go to the dispatch.  No call to `validate_message` occurs. -/
def handleIncomingMessage (M : CurveModel P) (crypto : CryptoHandler P)
    (f : InboundParse) : CliOutcome :=
  match f with
  | .notJson => .droppedNonJson
  | .webMessage sender text => .webDisplayed (sender.getD "Anonymous") (text.getD "")
  | .notProtocol => .droppedBadFormat
  | .protocol m => cliHandleProtocolMessage M crypto m

/-! ## Abbreviations for the signing equation (sub-terms of
`signWithOnionKey` / `verifyWithOnionAddress`) -/

/-- The commitment `R` produced when signing `m` under the raw expanded key
`rawKey`. -/
def signRBytes (M : CurveModel P) (rawKey m : Bytes) : Bytes :=
  M.compress ((bytesToNat (M.hash (rawKey.drop 32 ++ m)) % M.ord) • M.g)

/-- The Fiat-Shamir challenge scalar `k = H(R ‖ A ‖ m) mod ℓ`. -/
def challenge (M : CurveModel P) (bigR pkBytes m : Bytes) : Nat :=
  bytesToNat (M.hash (bigR ++ pkBytes ++ m)) % M.ord

/-! ## A concrete instantiation of the curve model

Used to evaluate the embedding on explicit inputs (every operation is
executable).  The group is `ZMod 5` with basepoint `1`; compression writes
the element into the first of 32 bytes; the "hash" records only the input
length (an instantiation permitted by the model: the repository relies on
no algebraic property of SHA-512). -/

def zeros (n : Nat) : Bytes := List.replicate n (byte 0)

def toyCompress (z : ZMod 5) : Bytes := byte z.val :: zeros 31

def toyDecompress (b : Bytes) : Option (ZMod 5) :=
  match b with
  | x :: rest => if x.val < 5 ∧ rest = zeros 31 then some ((x.val : Nat) : ZMod 5) else none
  | [] => none

def toyMontEnc (z : ZMod 5) : Bytes := byte z.val :: List.replicate 31 (byte 7)

def toyMontMul (n : Nat) (u : Bytes) : Bytes :=
  match u with
  | x :: _ => toyMontEnc (((n : Nat) : ZMod 5) * ((x.val : Nat) : ZMod 5))
  | [] => []

def toyModel : CurveModel (ZMod 5) where
  g := 1
  ord := 5
  compress := toyCompress
  decompress := toyDecompress
  toMontgomery := toyMontEnc
  montMul := toyMontMul
  hash := fun b => [byte b.length]
  hkdf := fun b => b
  aeadSeal := fun _ _ m => m
  aeadOpen := fun _ _ c => some c
  ord_pos := by decide
  ord_lt := by norm_num
  ord_smul := by decide
  decompress_compress := by decide
  compress_injective := by decide
  compress_length := by decide
  toMontgomery_length := by decide
  montMul_toMontgomery := by
    intro n Q
    have h5 : Q.val < 5 := ZMod.val_lt Q
    have hcast : ∀ R : ZMod 5, ((R.val : Nat) : ZMod 5) = R := by decide
    simp only [toyMontMul, toyMontEnc, byte_val]
    rw [Nat.mod_eq_of_lt (by omega), hcast Q, ← nsmul_eq_mul]
  aeadOpen_aeadSeal := fun _ _ _ => rfl

/-! ## Concrete witness data -/

/-- Identity A: expanded key with clamped scalar `32 + 64·256³¹`
(`≡ 1 (mod 5)`). -/
def keyA : Bytes := byte 32 :: (zeros 30 ++ [byte 64] ++ zeros 32)

/-- Identity B: expanded key with clamped scalar `8 + 64·256³¹`
(`≡ 2 (mod 5)`). -/
def keyB : Bytes := byte 8 :: (zeros 30 ++ [byte 64] ++ zeros 32)

/-- A's address: 56 base32 characters decoding to
`[1, 0 × 31, 0, 0, 3]`. -/
def addrA : String := "aeaaaaaaaaaaaaaaaaaaaaaaaaaaaaaaaaaaaaaaaaaaaaaaaaaaaaad"

/-- B's address: 56 base32 characters decoding to
`[2, 0 × 31, 0, 0, 3]`. -/
def addrB : String := "aiaaaaaaaaaaaaaaaaaaaaaaaaaaaaaaaaaaaaaaaaaaaaaaaaaaaaad"

/-- A's handler state after `set_onion_signing_key(keyA)`. -/
def stateA : CryptoHandler (ZMod 5) :=
  { onionSigningKeySeed := some (keyA.take 32),
    rawTorExpandedKey := some keyA,
    torVerifyingKey := some ⟨toyCompress 1, 1⟩ }

/-- B's handler state after `set_onion_signing_key(keyB)`. -/
def stateB : CryptoHandler (ZMod 5) :=
  { onionSigningKeySeed := some (keyB.take 32),
    rawTorExpandedKey := some keyB,
    torVerifyingKey := some ⟨toyCompress 2, 2⟩ }

/-- A row used by the C9 witness. -/
def rowEx : StoredRow :=
  { id := "m1", msgType := "text", senderId := some "a", recipientId := some "b",
    payload := "\x7b\x7d", timestamp := 0, isSent := true, isRead := false }

/-!
# Theorems settling the claims
-/

/-- Inverting a successful `onion_to_pubkey`: the verifying key holds the
first 32 decoded bytes together with their decompression. -/
theorem onionToPubkey_ok {M : CurveModel P} {s : String} {vk : VerifyingKey P}
    (h : onionToPubkey M s = .ok vk) :
    ∃ d, base32Decode (normalizeOnion s.data) = some d ∧ d.length = 35 ∧
      vk.bytes = d.take 32 ∧ M.decompress (d.take 32) = some vk.point := by
  unfold onionToPubkey at h
  split at h
  · simp at h
  · split at h
    · simp at h
    · rename_i d hd
      split at h
      · simp at h
      · split at h
        · simp at h
        · split at h
          · simp at h
          · rename_i pt hpt
            simp only [Except.ok.injEq] at h
            cases h
            exact ⟨d, hd, by omega, rfl, hpt⟩

/-- C1 (confirmed).  For every valid identity — a 64-byte expanded
secret accepted by `set_onion_signing_key` whose first 32 bytes are already
clamped — the X25519 public key obtained from the clamped scalar
(`EdwardsPoint::mul_base_clamped(…).to_montgomery()`, i.e. scalar
multiplication of the Montgomery basepoint) coincides with the X25519
public key obtained from the stored Ed25519 verifying key by
`CryptoHandler::ed25519_pk_to_x25519` (decompress, then take the
Montgomery u-coordinate). -/
theorem claim_C1_dh_public_equivalence (M : CurveModel P) (keyBytes sk : Bytes)
    (st : CryptoHandler P) (vk : VerifyingKey P)
    (hset : setOnionSigningKey M CryptoHandler.new keyBytes = .ok st)
    (hclamped : clampBytes (keyBytes.take 32) = keyBytes.take 32)
    (hvk : st.torVerifyingKey = some vk)
    (hsk : getX25519SecretFromTorKey st = .ok sk) :
    ed25519PkToX25519 M vk = xPublicKeyFromSecret M sk := by
  unfold setOnionSigningKey at hset
  split at hset
  · exact Except.noConfusion hset
  · rw [M.decompress_compress] at hset
    simp only [Except.ok.injEq] at hset
    subst hset
    simp only [Option.some.injEq] at hvk
    subst hvk
    unfold getX25519SecretFromTorKey at hsk
    simp only [Except.ok.injEq] at hsk
    subst hsk
    unfold ed25519PkToX25519
    rw [M.decompress_compress]
    unfold xPublicKeyFromSecret
    rw [hclamped]
    exact congrArg _ (M.nsmul_mod _).symm

/-- Witness for C1 at the concrete identity `keyA` in the executable
model. -/
theorem claim_C1_witness :
    ed25519PkToX25519 toyModel ⟨toyCompress 1, 1⟩ =
      xPublicKeyFromSecret toyModel (keyA.take 32) :=
  claim_C1_dh_public_equivalence toyModel keyA (keyA.take 32) stateA ⟨toyCompress 1, 1⟩
    (by decide) (by decide) (by decide) (by decide)

/-- C4 (confirmed).  The decoder `onion_to_pubkey` trims whitespace and the
`.onion` suffix and lowercases; it succeeds — returning the first 32
decoded bytes as the verifying key — precisely when the resulting text has
length 56, base32-decodes (RFC 4648, no padding) to exactly 35 bytes, the
version byte (byte 34) equals 3, and the first 32 bytes decompress to a
valid Ed25519 verifying key; every mismatch yields an error. -/
theorem claim_C4_onion_decoding (M : CurveModel P) (s : String) :
    ((∃ vk, onionToPubkey M s = .ok vk) ↔
      ((normalizeOnion s.data).length = 56 ∧
       ∃ d, base32Decode (normalizeOnion s.data) = some d ∧ d.length = 35 ∧
         d.getD 34 (byte 0) = byte 3 ∧ ∃ pt, M.decompress (d.take 32) = some pt)) ∧
    (∀ vk, onionToPubkey M s = .ok vk →
      ∃ d, base32Decode (normalizeOnion s.data) = some d ∧
        vk.bytes = d.take 32 ∧ M.decompress (d.take 32) = some vk.point) := by
  constructor
  · unfold onionToPubkey
    split
    · rename_i h56
      constructor
      · rintro ⟨vk, hvk⟩; exact Except.noConfusion hvk
      · rintro ⟨h, _⟩; exact absurd h h56
    · rename_i h56
      split
      · rename_i hdec
        constructor
        · rintro ⟨vk, hvk⟩; exact Except.noConfusion hvk
        · rintro ⟨_, d, hd, _⟩; rw [hd] at hdec; exact Option.noConfusion hdec
      · rename_i d hd
        split
        · rename_i h35
          constructor
          · rintro ⟨vk, hvk⟩; exact Except.noConfusion hvk
          · rintro ⟨_, d2, hd2, h35', _⟩
            rw [hd] at hd2
            simp only [Option.some.injEq] at hd2
            subst hd2
            exact absurd h35' h35
        · rename_i h35
          split
          · rename_i hver
            constructor
            · rintro ⟨vk, hvk⟩; exact Except.noConfusion hvk
            · rintro ⟨_, d2, hd2, _, hver', _⟩
              rw [hd] at hd2
              simp only [Option.some.injEq] at hd2
              subst hd2
              exact absurd hver' hver
          · rename_i hver
            split
            · rename_i hpt
              constructor
              · rintro ⟨vk, hvk⟩; exact Except.noConfusion hvk
              · rintro ⟨_, d2, hd2, _, _, pt, hpt'⟩
                rw [hd] at hd2
                simp only [Option.some.injEq] at hd2
                subst hd2
                rw [hpt] at hpt'
                exact Option.noConfusion hpt'
            · rename_i pt hpt
              constructor
              · intro
                refine ⟨by omega, d, hd, by omega, by simpa using hver, pt, hpt⟩
              · intro
                exact ⟨_, rfl⟩
  · intro vk h
    obtain ⟨d, hd, _, hb, hp⟩ := onionToPubkey_ok h
    exact ⟨d, hd, hb, hp⟩

/-- Witness for C4: the concrete address `addrA` decodes successfully and
the characterisation can be read off its decoded bytes. -/
theorem claim_C4_witness :
    ∃ vk, onionToPubkey toyModel addrA = .ok vk :=
  (claim_C4_onion_decoding toyModel addrA).1.mpr
    ⟨by decide, byte 1 :: (zeros 31 ++ [byte 0, byte 0, byte 3]),
     by decide, by decide, by decide, (1 : ZMod 5), by decide⟩

/-- C5, counterexample.  The CLI dispatch never invokes
`validate_message`: the concrete handshake below fails validation
(version `"2.0"`), carries a sender, and is nevertheless processed — the
peer is upserted and a response handshake is spawned (a state change), not
rejected. -/
theorem claim_C5_counterexample :
    validateMessage 0
      ⟨"x", .handshake, [("is_response", .bool false)], 0, some "sender", none, none, "2.0"⟩
      = false ∧
    cliHandleProtocolMessage toyModel CryptoHandler.new
      ⟨"x", .handshake, [("is_response", .bool false)], 0, some "sender", none, none, "2.0"⟩
      = .handshakeHandled "sender" false := ⟨by decide, by decide⟩

/-- C5, amended (corrected).  For inbound frames parsed as protocol
messages, `handle_incoming_message` in `cli.rs` rejects silently exactly
when the sender field is missing; the §4.C validation predicate is not
applied — a message failing it (e.g. wrong version) is still dispatched,
as the handshake arm below shows. -/
theorem claim_C5_dispatch_amended (M : CurveModel P) (crypto : CryptoHandler P) :
    (∀ m : Message, m.senderId = none →
      handleIncomingMessage M crypto (.protocol m) = .droppedNoSender) ∧
    (∀ (m : Message) (sender : String), m.senderId = some sender →
      m.msgType = .handshake →
      handleIncomingMessage M crypto (.protocol m) =
        .handshakeHandled sender
          (((m.payload.lookup "is_response").bind JValue.asBool).getD false)) := by
  constructor
  · intro m h
    simp [handleIncomingMessage, cliHandleProtocolMessage, h]
  · intro m sender hs ht
    simp [handleIncomingMessage, cliHandleProtocolMessage, hs, ht]

/-- Witness for the amended C5: a sender-less text message is dropped; a
validation-failing handshake with a sender is processed. -/
theorem claim_C5_witness :
    handleIncomingMessage toyModel CryptoHandler.new
      (.protocol ⟨"x", .text, [], 0, none, none, none, "1.0"⟩) = .droppedNoSender ∧
    handleIncomingMessage toyModel CryptoHandler.new
      (.protocol ⟨"x", .handshake, [], 0, some "peer", none, none, "2.0"⟩) =
      .handshakeHandled "peer" false :=
  ⟨(claim_C5_dispatch_amended toyModel CryptoHandler.new).1 _ rfl,
   (claim_C5_dispatch_amended toyModel CryptoHandler.new).2 _ _ rfl rfl⟩

/-- C6, counterexample.  The validator `validate_message` checks no sender field: a
sender-less non-ping message is accepted, refuting the claimed
characterisation (instantiated at the concrete message and local time
1000). -/
theorem claim_C6_counterexample :
    ¬ (validateMessage 1000 ⟨"x", .text, [], 0, none, none, none, "1.0"⟩ = true ↔
       ("x" ≠ "" ∧ "1.0" = "1.0" ∧ (0 : Int) ≤ 1000 + 300 ∧
        (MessageType.text ≠ MessageType.ping → (none : Option String) ≠ none))) := by
  decide

/-- C6, amended (corrected).  The validator `validate_message` returns `true` exactly
when the id is non-empty, the version equals `"1.0"` and the timestamp is
at most 300 seconds ahead of the local clock; no sender/ping condition is
involved. -/
theorem claim_C6_validate_amended (now : Int) (m : Message) :
    validateMessage now m = true ↔
      (m.id ≠ "" ∧ m.version = "1.0" ∧ m.timestamp ≤ now + 300) := by
  unfold validateMessage
  split_ifs with h1 h2 h3
  · simp only [Bool.false_eq_true, false_iff]
    intro hc
    exact hc.1 ((String.isEmpty_iff _).mp h1)
  · simp only [Bool.false_eq_true, false_iff]
    intro hc
    omega
  · simp only [Bool.false_eq_true, false_iff]
    intro hc
    exact h3 hc.2.1
  · simp only [true_iff]
    refine ⟨fun h => h1 (by simp [h, String.isEmpty_iff]), not_not.mp h3, by omega⟩

/-- C7 (code bug).  The canonicalisation signed by `sign_message`
formats the payload `HashMap` with `{:?}`, so it depends on the map's
iteration order: the two messages below have identical semantic content
(equal fields and equal payload maps) yet canonicalise to different byte
strings — across peers the order is process-dependent, so verification can
fail on honestly signed messages. -/
theorem claim_C7_canonicalisation_order_dependent :
    Message.semEq
      ⟨"id-1", .text, [("a", .str "1"), ("b", .str "2")], 7, some "s", some "r", none, "1.0"⟩
      ⟨"id-1", .text, [("b", .str "2"), ("a", .str "1")], 7, some "s", some "r", none, "1.0"⟩ ∧
    dataToSign
      ⟨"id-1", .text, [("a", .str "1"), ("b", .str "2")], 7, some "s", some "r", none, "1.0"⟩ ≠
    dataToSign
      ⟨"id-1", .text, [("b", .str "2"), ("a", .str "1")], 7, some "s", some "r", none, "1.0"⟩ := by
  refine ⟨⟨rfl, rfl, ?_, rfl, rfl, rfl⟩, by decide⟩
  exact Multiset.coe_eq_coe.mpr (List.Perm.swap _ _ _)

/-- C8, counterexample.  The verifier `verify_with_onion_address` does not return
`false` on an undecodable address: it surfaces an error value. -/
theorem claim_C8_counterexample :
    verifyWithOnionAddress toyModel CryptoHandler.new (strBytes "msg") "sig" "" =
      .error (.signature "Invalid onion address length (must be v3)") ∧
    verifyWithOnionAddress toyModel CryptoHandler.new (strBytes "msg") "sig" "" ≠
      .ok false := ⟨by decide, by decide⟩

/-- C9 (confirmed).  The insert `save_message` returns `Ok(true)` and appends the
row when the id is fresh, returns `Ok(false)` leaving the store unchanged
when the id collides (never an error), and therefore preserves uniqueness
of message ids. -/
theorem claim_C9_save_message_idempotent (db : List StoredRow) (msgId msgType : String)
    (senderId recipientId : Option String) (payload : JValue) (timestamp : Int)
    (isSent : Bool) :
    (db.any (fun r => r.id = msgId) = true →
      saveMessage db msgId msgType senderId recipientId payload timestamp isSent =
        .ok (false, db)) ∧
    (db.any (fun r => r.id = msgId) = false →
      saveMessage db msgId msgType senderId recipientId payload timestamp isSent =
        .ok (true, db ++ [{ id := msgId, msgType := msgType, senderId := senderId,
                            recipientId := recipientId, payload := payload.toJsonString,
                            timestamp := timestamp, isSent := isSent, isRead := false }])) ∧
    (∀ inserted db2,
      saveMessage db msgId msgType senderId recipientId payload timestamp isSent =
        .ok (inserted, db2) →
      (db.map StoredRow.id).Nodup → (db2.map StoredRow.id).Nodup) := by
  refine ⟨fun h => by simp [saveMessage, h], fun h => by simp [saveMessage, h], ?_⟩
  intro inserted db2 hsave hnodup
  by_cases h : db.any (fun r => r.id = msgId) = true
  · simp [saveMessage, h] at hsave
    rw [← hsave.2]
    exact hnodup
  · have h' : db.any (fun r => r.id = msgId) = false := by
      simpa using h
    simp [saveMessage, h'] at hsave
    rw [← hsave.2, List.map_append]
    refine List.Nodup.append hnodup (by simp) ?_
    intro x hx hx2
    simp only [List.map_cons, List.map_nil, List.mem_singleton] at hx2
    subst hx2
    simp only [List.mem_map] at hx
    obtain ⟨r, hr, hrid⟩ := hx
    have := List.any_eq_false.mp h' r hr
    simp only [decide_eq_true_eq] at this
    exact this hrid

/-- Witness for C9: a colliding insert is a no-op returning `false`; a
fresh insert appends and returns `true`. -/
theorem claim_C9_witness :
    saveMessage [rowEx] "m1" "text" none none (.obj []) 5 false = .ok (false, [rowEx]) ∧
    saveMessage [rowEx] "m2" "text" none none (.obj []) 5 false =
      .ok (true, [rowEx, { id := "m2", msgType := "text", senderId := none,
                           recipientId := none, payload := "\x7b\x7d", timestamp := 5,
                           isSent := false, isRead := false }]) :=
  ⟨(claim_C9_save_message_idempotent [rowEx] "m1" "text" none none (.obj []) 5 false).1
     (by decide),
   (claim_C9_save_message_idempotent [rowEx] "m2" "text" none none (.obj []) 5 false).2.1
     (by decide)⟩

/-- C10 (confirmed).  For a non-empty received frame that does not
start with an HTTP verb, `handle_client` hands the bytes to the message
callback and replies the literal `"OK\n"` unconditionally — nothing about
the content (JSON or not, protocol-valid or not) is inspected, so the
acknowledgement carries no acceptance information. -/
theorem claim_C10_unconditional_ok (data : Bytes)
    (hne : data.isEmpty = false)
    (hget : bytesStartWith (strBytes "GET ") data = false)
    (hpost : bytesStartWith (strBytes "POST ") data = false)
    (hhead : bytesStartWith (strBytes "HEAD ") data = false) :
    handleClient data =
      (.message (String.mk (trimChars (utf8Lossy data))), some "OK\n") := by
  simp [handleClient, hne, hget, hpost, hhead]

/-- Witness for C10: a frame that is not valid JSON is still passed on and
acknowledged with `OK`. -/
theorem claim_C10_witness :
    handleClient (strBytes "hello \x7bnot json") =
      (.message "hello \x7bnot json", some "OK\n") := by
  have h := claim_C10_unconditional_ok (strBytes "hello \x7bnot json")
    (by decide) (by decide) (by decide) (by decide)
  rw [h]
  decide

theorem natToBytesLE_length (k n : Nat) : (natToBytesLE k n).length = k := by
  induction k generalizing n with
  | zero => rfl
  | succ k ih => simp [natToBytesLE, ih]

/-- Inverting a successful `set_onion_signing_key`. -/
theorem setOnionSigningKey_ok {M : CurveModel P} {k : Bytes} {st : CryptoHandler P}
    (h : setOnionSigningKey M CryptoHandler.new k = .ok st) :
    st = { onionSigningKeySeed := some (k.take 32),
           rawTorExpandedKey := some k,
           torVerifyingKey :=
             some ⟨M.compress ((bytesToNat (k.take 32) % M.ord) • M.g),
                   (bytesToNat (k.take 32) % M.ord) • M.g⟩ } := by
  unfold setOnionSigningKey at h
  split at h
  · exact Except.noConfusion h
  · rw [M.decompress_compress] at h
    simp only [Except.ok.injEq] at h
    exact h.symm

/-- The verification equation `k•(-A) + s•G` collapses to the commitment
when `A = a•G` and `s = (k·a + r) mod ℓ`. -/
theorem expectedR_cancel (M : CurveModel P) (a k r : Nat) :
    k • (-(a • M.g)) + ((k * a + r) % M.ord) • M.g = r • M.g := by
  rw [← M.nsmul_mod, add_nsmul, smul_neg, smul_smul]
  abel

/-- If the verification equation closes under challenge `kb` and key `Q`,
then `kb•Q` equals the honest `k•(a•G)`. -/
theorem forged_challenge_eq (M : CurveModel P) {Q : P} (a kb k r : Nat)
    (h : M.compress (kb • (-Q) + ((k * a + r) % M.ord) • M.g) = M.compress (r • M.g)) :
    kb • Q = k • (a • M.g) := by
  have h2 := M.compress_injective _ _ h
  rw [← M.nsmul_mod, add_nsmul, smul_neg, ← add_assoc] at h2
  have h3 : -(kb • Q) + (k * a) • M.g + r • M.g = 0 + r • M.g := by
    rw [h2, zero_add]
  have h4 : -(kb • Q) + (k * a) • M.g = 0 := add_right_cancel h3
  rw [smul_smul]
  exact neg_add_eq_zero.mp h4

/-- Evaluation of `verify_with_onion_address` on a well-formed encoded
signature: the result is `Ok` of the curve equation check. -/
theorem verify_encoded_sig (M : CurveModel P) (crypto : CryptoHandler P)
    (vk : VerifyingKey P) (addr : String) (msg bigR : Bytes) (s : Nat)
    (haddr : onionToPubkey M addr = .ok vk) (hR : bigR.length = 32) (hs : s < M.ord) :
    verifyWithOnionAddress M crypto msg (base64Encode (bigR ++ natToBytesLE 32 s)) addr =
      .ok (decide (M.compress
        ((challenge M bigR vk.bytes msg) • (-vk.point) + s • M.g) = bigR)) := by
  have hlen : (bigR ++ natToBytesLE 32 s).length = 64 := by
    rw [List.length_append, hR, natToBytesLE_length]
  simp only [verifyWithOnionAddress, haddr, base64_roundtrip, hlen]
  rw [if_neg (by omega)]
  rw [List.take_left' hR, List.drop_left' hR]
  rw [bytesToNat_natToBytesLE, Nat.mod_eq_of_lt (lt_trans hs M.ord_lt)]
  rw [if_pos hs]
  rfl

/-- C2 (confirmed).  For any two valid identities A and B and any
UTF-8 plaintext: decrypting (as B) the envelope produced by encrypting (as
A) to B's address returns the plaintext.  The two random samplings of
`encrypt_message` are arbitrary. -/
theorem claim_C2_ecies_roundtrip (M : CurveModel P) (kA kB : Bytes)
    (stA stB : CryptoHandler P) (addrStrB : String) (vkB : VerifyingKey P)
    (p ephBytes nonceBytes : Bytes)
    (hsetA : setOnionSigningKey M CryptoHandler.new kA = .ok stA)
    (hsetB : setOnionSigningKey M CryptoHandler.new kB = .ok stB)
    (hclampB : clampBytes (kB.take 32) = kB.take 32)
    (haddrB : onionToPubkey M addrStrB = .ok vkB)
    (hptB : vkB.point = (bytesToNat (kB.take 32) % M.ord) • M.g)
    (hp : utf8Valid p = true) :
    (encryptMessage M stA p addrStrB ephBytes nonceBytes).bind
      (fun env => decryptMessage M stB env) = .ok p := by
  have hstB := setOnionSigningKey_ok hsetB
  subst hstB
  obtain ⟨d, hd, hlen, hbytes, hdec⟩ := onionToPubkey_ok haddrB
  have hdecompB : M.decompress vkB.bytes = some vkB.point := by
    rw [hbytes]; exact hdec
  have hmul : (bytesToNat (clampBytes ephBytes) * (bytesToNat (kB.take 32) % M.ord)) % M.ord
      = (bytesToNat (kB.take 32) * bytesToNat (clampBytes ephBytes)) % M.ord := by
    rw [mul_comm, Nat.mod_mul_mod]
  have hsc : bytesToNat (clampBytes ephBytes) • (bytesToNat (kB.take 32) % M.ord) • M.g
      = bytesToNat (kB.take 32) • bytesToNat (clampBytes ephBytes) • M.g := by
    rw [smul_smul, smul_smul, M.nsmul_mod, hmul, ← M.nsmul_mod]
  simp only [encryptMessage, haddrB, Except.bind, decryptMessage, getX25519SecretFromTorKey,
    ed25519PkToX25519, hdecompB, base64_roundtrip, xPublicKeyFromSecret, diffieHellman,
    hclampB, M.montMul_toMontgomery, M.toMontgomery_length, hptB, hsc, ne_eq,
    not_true_eq_false, if_false, ite_false, reduceIte, M.aeadOpen_aeadSeal, hp, if_true,
    ite_true]

/-- Witness for C2: a complete encrypt-then-decrypt run between the
concrete identities `keyA` and `keyB` in the executable model. -/
theorem claim_C2_witness :
    (encryptMessage toyModel stateA (strBytes "hi") addrB (zeros 32) (zeros 12)).bind
      (fun env => decryptMessage toyModel stateB env) = .ok (strBytes "hi") :=
  claim_C2_ecies_roundtrip toyModel keyA keyB stateA stateB addrB ⟨toyCompress 2, 2⟩
    (strBytes "hi") (zeros 32) (zeros 12) (by decide) (by decide) (by decide) (by decide)
    (by decide) (by decide)

/-- C3, counterexample.  The identity-binding halves of C3 do not
follow from the code and the primitive contracts: in the executable model
(a legitimate instantiation of the hash oracle) a signature produced by
identity A verifies under the distinct identity B's address.  (For the
real SHA-512 the property is only *computationally* true; no theorem of
the embedding can deliver the unconditional `false` the claim states.) -/
theorem claim_C3_counterexample :
    setOnionSigningKey toyModel CryptoHandler.new keyA = .ok stateA ∧
    setOnionSigningKey toyModel CryptoHandler.new keyB = .ok stateB ∧
    addrA ≠ addrB ∧
    onionToPubkey toyModel addrB = .ok ⟨toyCompress 2, 2⟩ ∧
    stateB.torVerifyingKey = some ⟨toyCompress 2, 2⟩ ∧
    signWithOnionKey toyModel stateA [byte 0] =
      .ok "AwAAAAAAAAAAAAAAAAAAAAAAAAAAAAAAAAAAAAAAAAADAAAAAAAAAAAAAAAAAAAAAAAAAAAAAAAAAAAAAAAAAA==" ∧
    verifyWithOnionAddress toyModel stateA [byte 0]
      "AwAAAAAAAAAAAAAAAAAAAAAAAAAAAAAAAAAAAAAAAAADAAAAAAAAAAAAAAAAAAAAAAAAAAAAAAAAAAAAAAAAAA=="
      addrB = .ok true :=
  ⟨by decide, by decide, by decide, by decide, by decide, by decide, by decide⟩

/-- C3, amended (corrected).  A signature by identity A verifies under
A's own address; it is rejected under a different identity's address, and
a different message is rejected under A's address, *provided* the
respective challenge collision `k_X•X = k_A•A` does not occur — the
collision-freeness is a cryptographic property of SHA-512, not a
consequence of the code. -/
theorem claim_C3_signature_binding_amended (M : CurveModel P)
    (kA : Bytes) (stA : CryptoHandler P) (addrStrA addrStrB : String)
    (vkA vkB : VerifyingKey P) (m mAlt : Bytes) (sig : String)
    (hsetA : setOnionSigningKey M CryptoHandler.new kA = .ok stA)
    (hclampA : clampBytes (kA.take 32) = kA.take 32)
    (haddrA : onionToPubkey M addrStrA = .ok vkA)
    (hvkA : stA.torVerifyingKey = some vkA)
    (hsig : signWithOnionKey M stA m = .ok sig) :
    verifyWithOnionAddress M stA m sig addrStrA = .ok true ∧
    (onionToPubkey M addrStrB = .ok vkB →
      challenge M (signRBytes M kA m) vkB.bytes m • vkB.point ≠
        challenge M (signRBytes M kA m) vkA.bytes m • vkA.point →
      verifyWithOnionAddress M stA m sig addrStrB = .ok false) ∧
    (challenge M (signRBytes M kA m) vkA.bytes mAlt • vkA.point ≠
        challenge M (signRBytes M kA m) vkA.bytes m • vkA.point →
      verifyWithOnionAddress M stA mAlt sig addrStrA = .ok false) := by
  have hstA := setOnionSigningKey_ok hsetA
  subst hstA
  simp only [Option.some.injEq] at hvkA
  subst hvkA
  simp only [signWithOnionKey, hclampA, Except.ok.injEq] at hsig
  subst hsig
  dsimp only
  refine ⟨?_, ?_, ?_⟩
  · rw [verify_encoded_sig M _ _ addrStrA m _ _ haddrA (M.compress_length _)
      (Nat.mod_lt _ M.ord_pos)]
    dsimp only
    simp only [challenge]
    refine congrArg Except.ok (decide_eq_true ?_)
    rw [expectedR_cancel]
  · intro hB hne
    rw [verify_encoded_sig M _ _ addrStrB m _ _ hB (M.compress_length _)
      (Nat.mod_lt _ M.ord_pos)]
    refine congrArg Except.ok (decide_eq_false ?_)
    intro hEq
    exact hne (forged_challenge_eq M _ _ _ _ hEq)
  · intro hne
    rw [verify_encoded_sig M _ _ addrStrA mAlt _ _ haddrA (M.compress_length _)
      (Nat.mod_lt _ M.ord_pos)]
    dsimp only
    refine congrArg Except.ok (decide_eq_false ?_)
    intro hEq
    exact hne (forged_challenge_eq M _ _ _ _ hEq)

/-- Witness for the amended C3, at concrete identities A, B and messages
where the challenge non-collision hypotheses hold. -/
theorem claim_C3_witness :
    verifyWithOnionAddress toyModel stateA [byte 0, byte 0]
      "BAAAAAAAAAAAAAAAAAAAAAAAAAAAAAAAAAAAAAAAAAAAAAAAAAAAAAAAAAAAAAAAAAAAAAAAAAAAAAAAAAAAAA=="
      addrA = .ok true ∧
    verifyWithOnionAddress toyModel stateA [byte 0, byte 0]
      "BAAAAAAAAAAAAAAAAAAAAAAAAAAAAAAAAAAAAAAAAAAAAAAAAAAAAAAAAAAAAAAAAAAAAAAAAAAAAAAAAAAAAA=="
      addrB = .ok false ∧
    verifyWithOnionAddress toyModel stateA [byte 0, byte 0, byte 0]
      "BAAAAAAAAAAAAAAAAAAAAAAAAAAAAAAAAAAAAAAAAAAAAAAAAAAAAAAAAAAAAAAAAAAAAAAAAAAAAAAAAAAAAA=="
      addrA = .ok false := by
  have h := claim_C3_signature_binding_amended toyModel keyA stateA addrA addrB
    ⟨toyCompress 1, 1⟩ ⟨toyCompress 2, 2⟩ [byte 0, byte 0] [byte 0, byte 0, byte 0]
    "BAAAAAAAAAAAAAAAAAAAAAAAAAAAAAAAAAAAAAAAAAAAAAAAAAAAAAAAAAAAAAAAAAAAAAAAAAAAAAAAAAAAAA=="
    (by decide) (by decide) (by decide) (by decide) (by decide)
  exact ⟨h.1, h.2.1 (by decide) (by decide), h.2.2 (by decide)⟩

/-- C8, amended (corrected).  The verifier `verify_with_onion_address` returns
`Ok(false)` only for a failed signature check; an undecodable address, a
malformed base64 signature, or a wrong-length signature surface an `Err`
value.  The wrapper `MessageProtocol::verify_message` is the function that
returns `false` on any such error (and on missing signature/sender). -/
theorem claim_C8_error_surface_amended (M : CurveModel P) (crypto : CryptoHandler P)
    (m : Message) (msg : Bytes) (sigB64 addr : String) :
    (verifyMessage M m crypto = true ↔
      ∃ sig sender, m.signature = some sig ∧ m.senderId = some sender ∧
        verifyWithOnionAddress M crypto (strBytes (dataToSign m)) sig sender = .ok true) ∧
    (∀ e, onionToPubkey M addr = .error e →
      verifyWithOnionAddress M crypto msg sigB64 addr = .error (.signature e)) ∧
    (∀ vk, onionToPubkey M addr = .ok vk → base64Decode sigB64 = none →
      verifyWithOnionAddress M crypto msg sigB64 addr =
        .error (.signature "base64 decode error")) ∧
    (∀ vk sigBytes, onionToPubkey M addr = .ok vk → base64Decode sigB64 = some sigBytes →
      sigBytes.length ≠ 64 →
      verifyWithOnionAddress M crypto msg sigB64 addr =
        .error (.signature "signature length error")) := by
  refine ⟨?_, ?_, ?_, ?_⟩
  · unfold verifyMessage
    cases hsig : m.signature with
    | none => simp [hsig]
    | some sig =>
      cases hsender : m.senderId with
      | none => simp [hsender]
      | some sender =>
        cases hres : verifyWithOnionAddress M crypto (strBytes (dataToSign m)) sig sender with
        | ok b => cases b <;> simp [hres]
        | error e => simp [hres]
  · intro e he
    simp [verifyWithOnionAddress, he]
  · intro vk hvk hb
    simp [verifyWithOnionAddress, hvk, hb]
  · intro vk sigBytes hvk hb hlen
    simp [verifyWithOnionAddress, hvk, hb, hlen]

/-- Witness for the amended C8: an undecodable address surfaces an error
value (not `false`). -/
theorem claim_C8_witness :
    verifyWithOnionAddress toyModel CryptoHandler.new [] "" "nope" =
      .error (.signature "Invalid onion address length (must be v3)") :=
  (claim_C8_error_surface_amended toyModel CryptoHandler.new
    ⟨"", .text, [], 0, none, none, none, "1.0"⟩ [] "" "nope").2.1 _ (by decide)

end Gumnam
